import Mathlib

/-!
# kube2iam nftables rule reconciler

A shallow embedding of `nftables/nftables.go` and the properties of its rule
reconciliation logic.

Modelling conventions:

* A Go `string` is a Lean `String`, read as its list of characters `.data`.
  The only characters the code inspects (`+`, `*`, and the ASCII diagnostics)
  are single-byte in UTF-8, so positions and substrings agree with Go's
  byte-level view on well-formed text.
* A Go `error` is its message (`err.Error()`); the `error` result of a function
  is `Option GoError`, with `none` standing for `nil`.
* The host (network interface table, executable search path, the `nft`
  process) is a parameter `Host σ` over an arbitrary engine state `σ`; every
  interaction is appended to an event log together with its outcome.
-/

namespace Kube2iam

/-! ## Go standard library: `strings` and `fmt` -/

/-- Go `strings.Contains` on character lists: `substr` occurs in `s` at some offset. -/
def containsList (substr : List Char) : List Char → Bool
  | [] => substr.isPrefixOf []
  | c :: cs => substr.isPrefixOf (c :: cs) || containsList substr cs

/-- Go `strings.Contains(s, substr)`. -/
def stringsContains (s substr : String) : Bool :=
  containsList substr.data s.data

/-- Go `strings.Replace` for an empty `old`: `new` is inserted before each
character and at the end, at most `n` times (no limit for negative `n`). -/
def replaceEmpty (new : List Char) : Int → List Char → List Char
  | n, [] => if n = 0 then [] else new
  | n, c :: cs => if n = 0 then c :: cs else new ++ c :: replaceEmpty new (n - 1) cs

/-- Go `strings.Replace` for a non-empty `old`: a left-to-right scan replacing
the first `n` non-overlapping occurrences (all of them for negative `n`).
`skip` counts the characters of a matched occurrence still to be dropped. -/
def replaceScan (old new : List Char) : Int → Nat → List Char → List Char
  | _, _, [] => []
  | n, skip + 1, _ :: cs => replaceScan old new n skip cs
  | n, 0, c :: cs =>
    if n ≠ 0 ∧ old.isPrefixOf (c :: cs) = true then
      new ++ replaceScan old new (n - 1) (old.length - 1) cs
    else
      c :: replaceScan old new n 0 cs

/-- Go `strings.Replace(s, old, new, n)`. -/
def stringsReplace (s old new : String) (n : Int) : String :=
  if old = new ∨ n = 0 then s
  else if old.data = [] then ⟨replaceEmpty new.data n s.data⟩
  else ⟨replaceScan old.data new.data n 0 s.data⟩

/-- Verb expansion of `fmt.Sprintf` for string operands: `%s`, `%v` and `%w`
consume the next operand, `%%` is a literal percent sign, a verb without an
operand prints Go's `%!s(MISSING)` marker. Operands beyond the verbs are not
printed; every call in `nftables.go` passes exactly one operand per verb. -/
def sprintfList : List Char → List String → List Char
  | [], _ => []
  | [c], _ => [c]
  | c :: d :: fs, args =>
    if c = '%' then
      if d = '%' then '%' :: sprintfList fs args
      else if d = 's' ∨ d = 'v' ∨ d = 'w' then
        match args with
        | a :: rest => a.data ++ sprintfList fs rest
        | [] => '%' :: '!' :: d :: "(MISSING)".data ++ sprintfList fs []
      else c :: sprintfList (d :: fs) args
    else c :: sprintfList (d :: fs) args

/-- Go `fmt.Sprintf(format, args...)` on string operands. -/
def fmtSprintf (format : String) (args : List String) : String :=
  ⟨sprintfList format.data args⟩

/-! ## The host: interface table, search path and the `nft` process -/

/-- A Go `error`, identified with its message. -/
abbrev GoError := String

/-- Go `errors.New(text)`. -/
def errorsNew (text : String) : GoError := text

/-- Go `fmt.Errorf(format, args...)`, with `%w` printing the wrapped error's message. -/
def fmtErrorf (format : String) (args : List String) : GoError :=
  fmtSprintf format args

/-- An external command: `exec.Command(name, args...)`. -/
structure Cmd where
  name : String
  args : List String
  deriving DecidableEq, Repr

/-- What `(*exec.Cmd).CombinedOutput` returns: the combined standard output and
standard error, and the error (`none` for exit status zero). -/
structure CmdResult where
  output : String
  err : Option GoError
  deriving DecidableEq, Repr

/-- The behaviour of the machine the reconciler runs on, over engine states `σ`. -/
structure Host (σ : Type) where
  /-- The error result of `net.InterfaceByName(name)`. -/
  interfaceByName : σ → String → Option GoError
  /-- The error result of `exec.LookPath(file)`. -/
  lookPath : σ → String → Option GoError
  /-- Running a command to completion: its result and the state it leaves. -/
  combinedOutput : σ → Cmd → CmdResult × σ

/-- One interaction with the host, with its outcome. -/
inductive Event where
  | interfaceByName (name : String) (err : Option GoError)
  | lookPath (file : String) (err : Option GoError)
  | exec (cmd : Cmd) (res : CmdResult)
  deriving DecidableEq, Repr

/-- The engine state together with the interactions performed so far. -/
structure World (σ : Type) where
  st : σ
  log : List Event

/-- The commands executed in a log, in order. -/
def execCmds : List Event → List Cmd
  | [] => []
  | Event.exec c _ :: es => c :: execCmds es
  | _ :: es => execCmds es

/-- The interface names looked up in a log, in order. -/
def lookups : List Event → List String
  | [] => []
  | Event.interfaceByName n _ :: es => n :: lookups es
  | _ :: es => lookups es

/-- `net.InterfaceByName(name)`, recorded. -/
def netInterfaceByName {σ : Type} (h : Host σ) (w : World σ) (name : String) :
    Option GoError × World σ :=
  let err := h.interfaceByName w.st name
  (err, ⟨w.st, w.log ++ [Event.interfaceByName name err]⟩)

/-- `exec.LookPath(file)`, recorded. -/
def execLookPath {σ : Type} (h : Host σ) (w : World σ) (file : String) :
    Option GoError × World σ :=
  let err := h.lookPath w.st file
  (err, ⟨w.st, w.log ++ [Event.lookPath file err]⟩)

/-- `exec.Command(name, args...).CombinedOutput()`, recorded. -/
def execCombinedOutput {σ : Type} (h : Host σ) (w : World σ) (name : String)
    (args : List String) : CmdResult × World σ :=
  let r := h.combinedOutput w.st ⟨name, args⟩
  (r.1, ⟨r.2, w.log ++ [Event.exec ⟨name, args⟩ r.1]⟩)

/-! ## `nftables/nftables.go` -/

/-- `checkInterfaceExists` validates the interface passed exists for the given
system; wildcard networks are ignored. -/
def checkInterfaceExists {σ : Type} (h : Host σ) (w : World σ) (hostInterface : String) :
    Option GoError × World σ :=
  if stringsContains hostInterface "+" = true then
    (none, w)
  else
    netInterfaceByName h w hostInterface

/-- `massageHostInterface` replaces `+` with `*` in the host interface. -/
def massageHostInterface (hostInterface : String) : String :=
  stringsReplace hostInterface "+" "*" (-1)

/-- `runNftCommand` executes an nft command with the given arguments. -/
def runNftCommand {σ : Type} (h : Host σ) (w : World σ) (args : List String) :
    Option GoError × World σ :=
  let r := execCombinedOutput h w "nft" args
  match r.1.err with
  | some err => (some (fmtErrorf "nft command failed: %s (output: %s)" [err, r.1.output]), r.2)
  | none => (none, r.2)

/-- `ruleExists` checks if a rule already exists in the specified chain. -/
def ruleExists {σ : Type} (h : Host σ) (w : World σ) (table chain rule : String) :
    (Bool × Option GoError) × World σ :=
  let r := execCombinedOutput h w "nft" ["list", "chain", "ip", table, chain]
  match r.1.err with
  | some err =>
    if stringsContains r.1.output "No such file or directory" = true ∨
        stringsContains r.1.output "does not exist" = true then
      ((false, none), r.2)
    else
      ((false, some (fmtErrorf "failed to list chain: %w (output: %s)" [err, r.1.output])), r.2)
  | none => ((stringsContains r.1.output rule, none), r.2)

/-- The DNAT rule text built in `AddRule`:
`fmt.Sprintf("ip daddr %s tcp dport 80 iifname %s dnat to %s:%s", ...)`. -/
def AddRule.rule (appPort metadataAddress actualHostInterface hostIP : String) : String :=
  fmtSprintf "ip daddr %s tcp dport 80 iifname %s dnat to %s:%s"
    [metadataAddress, actualHostInterface, hostIP, appPort]

/-- `AddRule` adds the required rule to the host's nat table using nftables. -/
def AddRule {σ : Type} (h : Host σ) (w : World σ)
    (appPort metadataAddress hostInterface hostIP : String) : Option GoError × World σ :=
  let r0 := checkInterfaceExists h w hostInterface
  match r0.1 with
  | some err => (some err, r0.2)
  | none =>
  let actualHostInterface := massageHostInterface hostInterface
  if hostIP = "" then
    (some (errorsNew "--host-ip must be set"), r0.2)
  else
  let r1 := execLookPath h r0.2 "nft"
  match r1.1 with
  | some err => (some (fmtErrorf "nft command not found: %w" [err]), r1.2)
  | none =>
  let r2 := runNftCommand h r1.2 ["add", "table", "ip", "kube2iam"]
  match r2.1 with
  | some err => (some (fmtErrorf "failed to create nftables table: %w" [err]), r2.2)
  | none =>
  let r3 := runNftCommand h r2.2 ["add", "chain", "ip", "kube2iam", "prerouting",
    "\x7b", "type", "nat", "hook", "prerouting", "priority", "-100", ";", "\x7d"]
  match r3.1 with
  | some err => (some (fmtErrorf "failed to create prerouting chain: %w" [err]), r3.2)
  | none =>
  let rule := AddRule.rule appPort metadataAddress actualHostInterface hostIP
  let r4 := ruleExists h r3.2 "kube2iam" "prerouting" rule
  match r4.1.2 with
  | some err => (some (fmtErrorf "failed to check if rule exists: %w" [err]), r4.2)
  | none =>
  if r4.1.1 = false then
    let r5 := runNftCommand h r4.2 ["add", "rule", "ip", "kube2iam", "prerouting", rule]
    match r5.1 with
    | some err => (some (fmtErrorf "failed to add nftables rule: %w" [err]), r5.2)
    | none => (none, r5.2)
  else
    (none, r4.2)

/-! ## Vocabulary for traces of `AddRule` -/

/-- The `nft add table ip kube2iam` command. -/
def tableCmd : Cmd := ⟨"nft", ["add", "table", "ip", "kube2iam"]⟩

/-- The `nft add chain ip kube2iam prerouting` command (nat prerouting hook,
priority -100). -/
def chainCmd : Cmd := ⟨"nft", ["add", "chain", "ip", "kube2iam", "prerouting",
  "\x7b", "type", "nat", "hook", "prerouting", "priority", "-100", ";", "\x7d"]⟩

/-- The `nft list chain ip kube2iam prerouting` command. -/
def listCmd : Cmd := ⟨"nft", ["list", "chain", "ip", "kube2iam", "prerouting"]⟩

/-- The `nft add rule ip kube2iam prerouting <rule>` command. -/
def addRuleCmd (rule : String) : Cmd :=
  ⟨"nft", ["add", "rule", "ip", "kube2iam", "prerouting", rule]⟩

/-- Outcome of the table creation when issued in engine state `s`. -/
def tableStep {σ : Type} (h : Host σ) (s : σ) : CmdResult × σ :=
  h.combinedOutput s tableCmd

/-- Outcome of the chain creation when issued after the table creation. -/
def chainStep {σ : Type} (h : Host σ) (s : σ) : CmdResult × σ :=
  h.combinedOutput (tableStep h s).2 chainCmd

/-- Outcome of the chain listing when issued after the chain creation. -/
def listStep {σ : Type} (h : Host σ) (s : σ) : CmdResult × σ :=
  h.combinedOutput (chainStep h s).2 listCmd

/-- Outcome of the rule append when issued after the chain listing. -/
def ruleStep {σ : Type} (h : Host σ) (s : σ) (rule : String) : CmdResult × σ :=
  h.combinedOutput (listStep h s).2 (addRuleCmd rule)

/-- The events of the interface check: one lookup, unless the name is wildcard-marked. -/
def checkEvents {σ : Type} (h : Host σ) (s : σ) (hostInterface : String) : List Event :=
  if stringsContains hostInterface "+" = true then []
  else [Event.interfaceByName hostInterface (h.interfaceByName s hostInterface)]

/-- The events a call added to the log, given the worlds before and after it. -/
def newEvents {σ : Type} (before after : World σ) : List Event :=
  after.log.drop before.log.length

/-- The diagnostics `ruleExists` reads as "the chain is not there yet". -/
def chainAbsent (output : String) : Prop :=
  stringsContains output "No such file or directory" = true ∨
    stringsContains output "does not exist" = true

instance (output : String) : Decidable (chainAbsent output) := by
  unfold chainAbsent; infer_instance

/-- The character-wise effect of the interface normaliser. -/
def plusToStar (c : Char) : Char := if c = '+' then '*' else c

/-- The path condition "all three preconditions of `AddRule` pass". -/
def Validated {σ : Type} (h : Host σ) (w : World σ) (hostInterface hostIP : String) : Prop :=
  (checkInterfaceExists h w hostInterface).1 = none ∧ hostIP ≠ "" ∧
    h.lookPath w.st "nft" = none

instance {σ : Type} (h : Host σ) (w : World σ) (hostInterface hostIP : String) :
    Decidable (Validated h w hostInterface hostIP) := by
  unfold Validated; infer_instance

/-- The events up to and including the search for the `nft` binary. -/
def preEvents {σ : Type} (h : Host σ) (s : σ) (hostInterface : String) : List Event :=
  checkEvents h s hostInterface ++ [Event.lookPath "nft" (h.lookPath s "nft")]

/-- The error `runNftCommand` builds from a failed command. -/
def nftError (e : GoError) (output : String) : GoError :=
  fmtErrorf "nft command failed: %s (output: %s)" [e, output]

/-- A command failure that `AddRule` does not tolerate: any failed command
other than a chain listing that reports the chain as absent. -/
def nonBenignFailure (c : Cmd) (r : CmdResult) : Prop :=
  r.err ≠ none ∧ ¬ (c = listCmd ∧ chainAbsent r.output)

/-- Checker for the fail-stop discipline: in the event list, a command that
failed non-benignly is followed by nothing, and the call reports failure. -/
def FailStop (failed : Bool) : List Event → Prop
  | [] => True
  | Event.exec c r :: rest =>
    (nonBenignFailure c r → rest = [] ∧ failed = true) ∧ FailStop failed rest
  | _ :: rest => FailStop failed rest

/-! ## Model hosts -/

/-- The rule lines of a chain listing: each rule text verbatim on a line of its own. -/
def nftLines : List String → String
  | [] => ""
  | r :: rs => "\t\t" ++ r ++ "\n" ++ nftLines rs

/-- The text `nft list chain ip kube2iam prerouting` prints for a chain holding
`rules`: the chain header, one line per rule carrying the rule text verbatim,
and the closing braces. -/
def nftListing (rules : List String) : String :=
  "table ip kube2iam \x7b\n\tchain prerouting \x7b\n\t\ttype nat hook prerouting priority -100; policy accept;\n"
    ++ nftLines rules ++ "\t\x7d\n\x7d\n"

/-- The firewall engine the idempotence properties assume, which is external
to `nftables.go`: every command succeeds and nothing but the commands given
changes the chain. The state is the list of rule texts appended to
`kube2iam prerouting`, `add rule` appends its rule text, `list chain` prints the
chain through `render`, every other command leaves the chain as it is.
`ifaces` is the interface table; the `nft` binary is on the search path. -/
def idealHost (ifaces : List String) (render : List String → String) : Host (List String) where
  interfaceByName _ name :=
    if name ∈ ifaces then none else some "route ip+net: no such network interface"
  lookPath _ _ := none
  combinedOutput rules cmd :=
    match cmd.args with
    | ["add", "rule", "ip", "kube2iam", "prerouting", rule] => (⟨"", none⟩, rules ++ [rule])
    | ["list", "chain", "ip", "kube2iam", "prerouting"] => (⟨render rules, none⟩, rules)
    | _ => (⟨"", none⟩, rules)

/-- A host with every interface present and `nft` installed, on which the chain
listing exits with `exit status 1` and the given combined output, and every
other command succeeds. -/
def failingListHost (output : String) : Host Unit where
  interfaceByName _ _ := none
  lookPath _ _ := none
  combinedOutput _ cmd :=
    if cmd = listCmd then (⟨output, some "exit status 1"⟩, ()) else (⟨"", none⟩, ())

/-! ## Facts about the string primitives -/

theorem containsList_spec (substr s : List Char) :
    containsList substr s = true ↔ substr <:+: s := by
  induction s with
  | nil =>
    cases substr <;> simp [containsList]
  | cons c cs ih =>
    simp only [containsList, Bool.or_eq_true, ih, List.isPrefixOf_iff_prefix]
    rw [List.infix_cons_iff]

theorem stringsContains_spec (s substr : String) :
    stringsContains s substr = true ↔ substr.data <:+: s.data := by
  simp [stringsContains, containsList_spec]

theorem containsList_singleton (a : Char) (s : List Char) :
    containsList [a] s = true ↔ a ∈ s := by
  induction s with
  | nil => simp [containsList]
  | cons c cs ih =>
    simp only [containsList, Bool.or_eq_true, ih, List.mem_cons]
    simp [List.isPrefixOf]

theorem stringsContains_plus (s : String) :
    stringsContains s "+" = true ↔ '+' ∈ s.data := by
  have h : ("+" : String).data = ['+'] := rfl
  simp [stringsContains, h, containsList_singleton]

theorem replaceScan_plus (n : Int) (hn : n < 0) (s : List Char) :
    replaceScan ['+'] ['*'] n 0 s = s.map plusToStar := by
  induction s generalizing n with
  | nil => simp [replaceScan]
  | cons c cs ih =>
    have hn0 : n ≠ 0 := by omega
    have hn1 : n - 1 < 0 := by omega
    by_cases hc : c = '+'
    · subst hc
      simp [replaceScan, hn0, ih (n - 1) hn1, plusToStar, List.isPrefixOf]
    · have hc2 : ¬ ('+' = c) := fun e => hc e.symm
      simp [replaceScan, hn0, ih n hn, plusToStar, List.isPrefixOf, hc, hc2]

theorem massageHostInterface_data (s : String) :
    (massageHostInterface s).data = s.data.map plusToStar := by
  have h1 : ¬ (("+" : String) = "*" ∨ (-1 : Int) = 0) := by decide
  have h2 : ¬ (("+" : String).data = []) := by decide
  have h3 : ("+" : String).data = ['+'] := rfl
  have h4 : ("*" : String).data = ['*'] := rfl
  simp only [massageHostInterface, stringsReplace, if_neg h1, if_neg h2, h3, h4]
  exact replaceScan_plus (-1) (by decide) s.data

theorem rule_eq (appPort metadataAddress actualHostInterface hostIP : String) :
    AddRule.rule appPort metadataAddress actualHostInterface hostIP =
      "ip daddr " ++ metadataAddress ++ " tcp dport 80 iifname " ++ actualHostInterface
        ++ " dnat to " ++ hostIP ++ ":" ++ appPort := by
  apply String.ext
  simp [AddRule.rule, fmtSprintf, sprintfList, String.data_append]

/-! ## Symbolic execution of `AddRule` -/

theorem checkInterfaceExists_eq {σ : Type} (h : Host σ) (w : World σ) (i : String) :
    checkInterfaceExists h w i =
      (if stringsContains i "+" = true then none else h.interfaceByName w.st i,
        ⟨w.st, w.log ++ checkEvents h w.st i⟩) := by
  unfold checkInterfaceExists checkEvents netInterfaceByName
  split <;> simp

theorem runNftCommand_fst {σ : Type} (h : Host σ) (w : World σ) (args : List String) :
    (runNftCommand h w args).1 =
      (h.combinedOutput w.st ⟨"nft", args⟩).1.err.map
        (fun e => nftError e (h.combinedOutput w.st ⟨"nft", args⟩).1.output) := by
  unfold runNftCommand execCombinedOutput nftError
  dsimp only
  cases (h.combinedOutput w.st ⟨"nft", args⟩).1.err <;> rfl

theorem runNftCommand_snd {σ : Type} (h : Host σ) (w : World σ) (args : List String) :
    (runNftCommand h w args).2 =
      ⟨(h.combinedOutput w.st ⟨"nft", args⟩).2,
        w.log ++ [Event.exec ⟨"nft", args⟩ (h.combinedOutput w.st ⟨"nft", args⟩).1]⟩ := by
  unfold runNftCommand execCombinedOutput
  dsimp only
  cases (h.combinedOutput w.st ⟨"nft", args⟩).1.err <;> rfl

theorem ruleExists_snd {σ : Type} (h : Host σ) (w : World σ) (table chain rule : String) :
    (ruleExists h w table chain rule).2 =
      ⟨(h.combinedOutput w.st ⟨"nft", ["list", "chain", "ip", table, chain]⟩).2,
        w.log ++ [Event.exec ⟨"nft", ["list", "chain", "ip", table, chain]⟩
          (h.combinedOutput w.st ⟨"nft", ["list", "chain", "ip", table, chain]⟩).1]⟩ := by
  unfold ruleExists execCombinedOutput
  dsimp only
  cases (h.combinedOutput w.st ⟨"nft", ["list", "chain", "ip", table, chain]⟩).1.err with
  | none => rfl
  | some e => dsimp only; split <;> rfl

theorem ruleExists_fst {σ : Type} (h : Host σ) (w : World σ) (table chain rule : String) :
    (ruleExists h w table chain rule).1 =
      (match (h.combinedOutput w.st ⟨"nft", ["list", "chain", "ip", table, chain]⟩).1.err with
      | some e =>
        if chainAbsent (h.combinedOutput w.st ⟨"nft", ["list", "chain", "ip", table, chain]⟩).1.output
        then (false, none)
        else (false, some (fmtErrorf "failed to list chain: %w (output: %s)"
          [e, (h.combinedOutput w.st ⟨"nft", ["list", "chain", "ip", table, chain]⟩).1.output]))
      | none =>
        (stringsContains
          (h.combinedOutput w.st ⟨"nft", ["list", "chain", "ip", table, chain]⟩).1.output rule,
          none)) := by
  unfold ruleExists execCombinedOutput chainAbsent
  dsimp only
  cases (h.combinedOutput w.st ⟨"nft", ["list", "chain", "ip", table, chain]⟩).1.err with
  | none => rfl
  | some e => dsimp only; split <;> rfl

theorem AddRule_cases {σ : Type} (h : Host σ) (w : World σ) (a m i ip : String) :
    let rule := AddRule.rule a m (massageHostInterface i) ip
    let res := AddRule h w a m i ip
    let T := tableStep h w.st
    let C := chainStep h w.st
    let L := listStep h w.st
    let R := ruleStep h w.st rule
    let pre := preEvents h w.st i
    (∃ e, (checkInterfaceExists h w i).1 = some e ∧
      res.1 = some e ∧ res.2.st = w.st ∧ res.2.log = w.log ++ checkEvents h w.st i) ∨
    ((checkInterfaceExists h w i).1 = none ∧ ip = "" ∧
      res.1 = some (errorsNew "--host-ip must be set") ∧ res.2.st = w.st ∧
      res.2.log = w.log ++ checkEvents h w.st i) ∨
    ((checkInterfaceExists h w i).1 = none ∧ ip ≠ "" ∧ ∃ e, h.lookPath w.st "nft" = some e ∧
      res.1 = some (fmtErrorf "nft command not found: %w" [e]) ∧ res.2.st = w.st ∧
      res.2.log = w.log ++ pre) ∨
    (Validated h w i ip ∧ ∃ e, T.1.err = some e ∧
      res.1 = some (fmtErrorf "failed to create nftables table: %w" [nftError e T.1.output]) ∧
      res.2.st = T.2 ∧ res.2.log = w.log ++ pre ++ [Event.exec tableCmd T.1]) ∨
    (Validated h w i ip ∧ T.1.err = none ∧ ∃ e, C.1.err = some e ∧
      res.1 = some (fmtErrorf "failed to create prerouting chain: %w" [nftError e C.1.output]) ∧
      res.2.st = C.2 ∧
      res.2.log = w.log ++ pre ++ [Event.exec tableCmd T.1, Event.exec chainCmd C.1]) ∨
    (Validated h w i ip ∧ T.1.err = none ∧ C.1.err = none ∧
      ∃ e, L.1.err = some e ∧ ¬ chainAbsent L.1.output ∧
      res.1 = some (fmtErrorf "failed to check if rule exists: %w"
          [fmtErrorf "failed to list chain: %w (output: %s)" [e, L.1.output]]) ∧
      res.2.st = L.2 ∧
      res.2.log = w.log ++ pre ++
          [Event.exec tableCmd T.1, Event.exec chainCmd C.1, Event.exec listCmd L.1]) ∨
    (Validated h w i ip ∧ T.1.err = none ∧ C.1.err = none ∧
      L.1.err = none ∧ stringsContains L.1.output rule = true ∧
      res.1 = none ∧ res.2.st = L.2 ∧
      res.2.log = w.log ++ pre ++
          [Event.exec tableCmd T.1, Event.exec chainCmd C.1, Event.exec listCmd L.1]) ∨
    (Validated h w i ip ∧ T.1.err = none ∧ C.1.err = none ∧
      ((L.1.err ≠ none ∧ chainAbsent L.1.output) ∨
        (L.1.err = none ∧ stringsContains L.1.output rule = false)) ∧
      ∃ e, R.1.err = some e ∧
      res.1 = some (fmtErrorf "failed to add nftables rule: %w" [nftError e R.1.output]) ∧
      res.2.st = R.2 ∧
      res.2.log = w.log ++ pre ++
          [Event.exec tableCmd T.1, Event.exec chainCmd C.1, Event.exec listCmd L.1,
           Event.exec (addRuleCmd rule) R.1]) ∨
    (Validated h w i ip ∧ T.1.err = none ∧ C.1.err = none ∧
      ((L.1.err ≠ none ∧ chainAbsent L.1.output) ∨
        (L.1.err = none ∧ stringsContains L.1.output rule = false)) ∧
      R.1.err = none ∧
      res.1 = none ∧ res.2.st = R.2 ∧
      res.2.log = w.log ++ pre ++
          [Event.exec tableCmd T.1, Event.exec chainCmd C.1, Event.exec listCmd L.1,
           Event.exec (addRuleCmd rule) R.1]) := by
  intro rule res T C L R pre
  have hres : res = AddRule h w a m i ip := rfl
  unfold AddRule at hres
  simp only [checkInterfaceExists_eq, execLookPath, runNftCommand_fst, runNftCommand_snd,
    ruleExists_fst, ruleExists_snd] at hres
  cases hchk : (checkInterfaceExists h w i).1 with
  | some e =>
    left
    refine ⟨e, rfl, ?_⟩
    rw [checkInterfaceExists_eq] at hchk
    simp only at hchk
    rw [hres]
    simp [hchk]
  | none =>
    right
    have hchk0 := hchk
    rw [checkInterfaceExists_eq] at hchk
    simp only at hchk
    simp only [hchk] at hres
    by_cases hip : ip = ""
    · left
      refine ⟨rfl, hip, ?_⟩
      rw [hres]
      simp [hip]
    right
    simp only [if_neg hip] at hres
    cases hpath : h.lookPath w.st "nft" with
    | some e =>
      left
      refine ⟨rfl, hip, e, rfl, ?_⟩
      rw [hres]
      simp [hpath, pre, preEvents]
    | none =>
    right
    have hv : Validated h w i ip := ⟨hchk0, hip, hpath⟩
    simp only [hpath] at hres
    have hT : T = h.combinedOutput w.st ⟨"nft", ["add", "table", "ip", "kube2iam"]⟩ := rfl
    rw [← hT] at hres
    cases hTe : T.1.err with
    | some e =>
      left
      refine ⟨hv, e, rfl, ?_⟩
      simp only [hTe, Option.map_some'] at hres
      rw [hres]
      simp [pre, preEvents, tableCmd, hpath]
    | none =>
    right
    simp only [hTe, Option.map_none'] at hres
    have hC : C = h.combinedOutput T.2 ⟨"nft", ["add", "chain", "ip", "kube2iam", "prerouting",
      "\x7b", "type", "nat", "hook", "prerouting", "priority", "-100", ";", "\x7d"]⟩ := rfl
    rw [← hC] at hres
    cases hCe : C.1.err with
    | some e =>
      left
      refine ⟨hv, rfl, e, rfl, ?_⟩
      simp only [hCe, Option.map_some'] at hres
      rw [hres]
      simp [pre, preEvents, tableCmd, chainCmd, hpath]
    | none =>
    right
    simp only [hCe, Option.map_none'] at hres
    have hL : L = h.combinedOutput C.2 ⟨"nft", ["list", "chain", "ip", "kube2iam", "prerouting"]⟩ :=
      rfl
    rw [← hL] at hres
    have hR : R = h.combinedOutput L.2
        ⟨"nft", ["add", "rule", "ip", "kube2iam", "prerouting", rule]⟩ := rfl
    have hrule : AddRule.rule a m (massageHostInterface i) ip = rule := rfl
    rw [hrule] at hres
    rw [← hR] at hres
    cases hLe : L.1.err with
    | some e =>
      simp only [hLe] at hres
      by_cases hab : chainAbsent L.1.output
      · simp only [if_pos hab, if_true] at hres
        right; right
        cases hRe : R.1.err with
        | some e2 =>
          left
          refine ⟨hv, rfl, rfl, Or.inl ⟨by simp, hab⟩, e2, rfl, ?_⟩
          simp only [hRe, Option.map_some'] at hres
          rw [hres]
          simp [pre, preEvents, tableCmd, chainCmd, listCmd, addRuleCmd, hpath]
        | none =>
          right
          refine ⟨hv, rfl, rfl, Or.inl ⟨by simp, hab⟩, rfl, ?_⟩
          simp only [hRe, Option.map_none'] at hres
          rw [hres]
          simp [pre, preEvents, tableCmd, chainCmd, listCmd, addRuleCmd, hpath]
      · simp only [if_neg hab] at hres
        left
        refine ⟨hv, rfl, rfl, e, rfl, hab, ?_⟩
        rw [hres]
        simp [pre, preEvents, tableCmd, chainCmd, listCmd, hpath]
    | none =>
      simp only [hLe] at hres
      right
      cases hex : stringsContains L.1.output rule with
      | true =>
        left
        refine ⟨hv, rfl, rfl, rfl, rfl, ?_⟩
        simp only [hex] at hres
        rw [hres]
        simp [pre, preEvents, tableCmd, chainCmd, listCmd, hpath]
      | false =>
        right
        simp only [hex, if_true] at hres
        cases hRe : R.1.err with
        | some e2 =>
          left
          refine ⟨hv, rfl, rfl, Or.inr ⟨rfl, rfl⟩, e2, rfl, ?_⟩
          simp only [hRe, Option.map_some'] at hres
          rw [hres]
          simp [pre, preEvents, tableCmd, chainCmd, listCmd, addRuleCmd, hpath]
        | none =>
          right
          refine ⟨hv, rfl, rfl, Or.inr ⟨rfl, rfl⟩, rfl, ?_⟩
          simp only [hRe, Option.map_none'] at hres
          rw [hres]
          simp [pre, preEvents, tableCmd, chainCmd, listCmd, addRuleCmd, hpath]

/-! ## Facts about logs -/

theorem execCmds_append (xs ys : List Event) :
    execCmds (xs ++ ys) = execCmds xs ++ execCmds ys := by
  induction xs with
  | nil => rfl
  | cons e es ih => cases e <;> simp [execCmds, ih]

theorem execCmds_checkEvents {σ : Type} (h : Host σ) (s : σ) (i : String) :
    execCmds (checkEvents h s i) = [] := by
  unfold checkEvents
  split <;> rfl

theorem execCmds_preEvents {σ : Type} (h : Host σ) (s : σ) (i : String) :
    execCmds (preEvents h s i) = [] := by
  simp [preEvents, execCmds_append, execCmds_checkEvents, execCmds]

theorem exec_not_mem_checkEvents {σ : Type} (h : Host σ) (s : σ) (i : String)
    (c : Cmd) (r : CmdResult) : Event.exec c r ∉ checkEvents h s i := by
  unfold checkEvents
  split <;> simp

theorem exec_not_mem_preEvents {σ : Type} (h : Host σ) (s : σ) (i : String)
    (c : Cmd) (r : CmdResult) : Event.exec c r ∉ preEvents h s i := by
  simp [preEvents, exec_not_mem_checkEvents]

theorem newEvents_of_log {σ : Type} {w w' : World σ} {evs : List Event}
    (hlog : w'.log = w.log ++ evs) : newEvents w w' = evs := by
  simp [newEvents, hlog]

theorem newEvents_of_log_assoc {σ : Type} {w w' : World σ} {xs ys : List Event}
    (hlog : w'.log = w.log ++ xs ++ ys) : newEvents w w' = xs ++ ys := by
  simp [newEvents, hlog, List.append_assoc]

theorem addRuleCmd_ne_tableCmd (rule : String) : addRuleCmd rule ≠ tableCmd := by
  intro hx
  have := congrArg (fun c => c.args.length) hx
  simp [addRuleCmd, tableCmd] at this

theorem addRuleCmd_ne_chainCmd (rule : String) : addRuleCmd rule ≠ chainCmd := by
  intro hx
  have := congrArg (fun c => c.args.length) hx
  simp [addRuleCmd, chainCmd] at this

theorem addRuleCmd_ne_listCmd (rule : String) : addRuleCmd rule ≠ listCmd := by
  intro hx
  have := congrArg (fun c => c.args.length) hx
  simp [addRuleCmd, listCmd] at this

theorem listCmd_ne_tableCmd : listCmd ≠ tableCmd := by decide

theorem listCmd_ne_chainCmd : listCmd ≠ chainCmd := by decide

theorem FailStop_index (failed : Bool) (evs : List Event) (hfs : FailStop failed evs)
    (k : Nat) (c : Cmd) (r : CmdResult) (hk : evs[k]? = some (Event.exec c r))
    (hbad : nonBenignFailure c r) : k + 1 = evs.length ∧ failed = true := by
  induction evs generalizing k with
  | nil => simp at hk
  | cons e es ih =>
    cases k with
    | zero =>
      simp only [List.getElem?_cons_zero, Option.some.injEq] at hk
      subst hk
      have hrest := hfs.1 hbad
      simp [hrest.1, hrest.2]
    | succ k =>
      simp only [List.getElem?_cons_succ] at hk
      have hes : FailStop failed es := by
        cases e with
        | exec c2 r2 => exact hfs.2
        | interfaceByName n e2 => exact hfs
        | lookPath f e2 => exact hfs
      have := ih hes k hk
      simp [this.1.symm, this.2]

theorem FailStop_append (failed : Bool) (xs ys : List Event)
    (hxs : ∀ c r, Event.exec c r ∉ xs) (hys : FailStop failed ys) :
    FailStop failed (xs ++ ys) := by
  induction xs with
  | nil => exact hys
  | cons e es ih =>
    have hes : ∀ c r, Event.exec c r ∉ es := fun c r hm => hxs c r (List.mem_cons_of_mem _ hm)
    cases e with
    | exec c2 r2 => exact absurd (List.mem_cons_self _ _) (hxs c2 r2)
    | interfaceByName n e2 => exact ih hes
    | lookPath f e2 => exact ih hes

theorem FailStop_of_no_exec (failed : Bool) (xs : List Event)
    (hxs : ∀ c r, Event.exec c r ∉ xs) : FailStop failed xs := by
  have := FailStop_append failed xs [] hxs trivial
  simpa using this

theorem cmds_nodup (rule : String) :
    [tableCmd, chainCmd, listCmd, addRuleCmd rule].Nodup := by
  have h1 : tableCmd ≠ chainCmd := by decide
  have h2 : tableCmd ≠ listCmd := by decide
  have h3 : chainCmd ≠ listCmd := by decide
  have h4 := (addRuleCmd_ne_tableCmd rule).symm
  have h5 := (addRuleCmd_ne_chainCmd rule).symm
  have h6 := (addRuleCmd_ne_listCmd rule).symm
  simp [h1, h2, h3, h4, h5, h6]

/-! ## The interface name normaliser and the interface check -/

/-- C4: `massageHostInterface` is total, keeps the length of the name, and at
every position holds `*` where the name holds `+` and the name's own character
elsewhere; so the result has no `+`, and a name without `+` is returned
unchanged. -/
theorem massageHostInterface_pointwise (s : String) :
    (massageHostInterface s).length = s.length ∧
    (∀ i : Nat, (massageHostInterface s).data[i]? =
      (s.data[i]?).map (fun c => if c = '+' then '*' else c)) ∧
    '+' ∉ (massageHostInterface s).data ∧
    ('+' ∉ s.data → massageHostInterface s = s) := by
  have hd := massageHostInterface_data s
  refine ⟨?_, ?_, ?_, ?_⟩
  · show (massageHostInterface s).data.length = s.data.length
    rw [hd, List.length_map]
  · intro i
    rw [hd, List.getElem?_map]
    rfl
  · rw [hd]
    intro hmem
    rcases List.mem_map.mp hmem with ⟨c, _, hc⟩
    unfold plusToStar at hc
    split at hc
    · exact absurd hc (by decide)
    · rename_i hne
      exact hne hc
  · intro hno
    apply String.ext
    rw [hd]
    conv_rhs => rw [← List.map_id s.data]
    apply List.map_congr_left
    intro c hc
    unfold plusToStar
    split
    · rename_i heq
      exact absurd (heq ▸ hc) hno
    · rfl

theorem massageHostInterface_pointwise_witness :
    '+' ∉ "eth0".data ∧ massageHostInterface "eth0" = "eth0" ∧
      (massageHostInterface "eth+").data[3]? = some '*' :=
  ⟨by decide, (massageHostInterface_pointwise "eth0").2.2.2 (by decide),
    ((massageHostInterface_pointwise "eth+").2.1 3).trans (by decide)⟩

/-- C7: `checkInterfaceExists` returns an error exactly when the name holds no
`+` and the lookup of that name in the host's interface table fails; a name
holding `+` performs no lookup and is accepted whatever the host is. -/
theorem checkInterfaceExists_error_iff {σ : Type} (h : Host σ) (w : World σ)
    (hostInterface : String) :
    ((checkInterfaceExists h w hostInterface).1.isSome = true ↔
      ('+' ∉ hostInterface.data ∧ (h.interfaceByName w.st hostInterface).isSome = true)) ∧
    ('+' ∉ hostInterface.data →
      (checkInterfaceExists h w hostInterface).1 = h.interfaceByName w.st hostInterface ∧
      lookups (newEvents w (checkInterfaceExists h w hostInterface).2) = [hostInterface]) ∧
    ('+' ∈ hostInterface.data → checkInterfaceExists h w hostInterface = (none, w)) := by
  unfold checkInterfaceExists netInterfaceByName
  by_cases hp : '+' ∈ hostInterface.data
  · have hc := (stringsContains_plus hostInterface).mpr hp
    rw [if_pos hc]
    refine ⟨⟨fun hx => ?_, fun hx => absurd hp hx.1⟩, fun hx => absurd hp hx, fun _ => rfl⟩
    cases hx
  · have hc : ¬ (stringsContains hostInterface "+" = true) :=
      fun hx => hp ((stringsContains_plus hostInterface).mp hx)
    rw [if_neg hc]
    refine ⟨⟨fun hx => ⟨hp, hx⟩, fun hx => hx.2⟩, fun _ => ⟨rfl, ?_⟩, fun hx => absurd hx hp⟩
    simp [newEvents, lookups]

theorem checkInterfaceExists_error_iff_witness :
    '+' ∈ "eth+".data ∧
      checkInterfaceExists (idealHost [] nftListing) ⟨[], []⟩ "eth+" = (none, ⟨[], []⟩) :=
  ⟨by decide, (checkInterfaceExists_error_iff (idealHost [] nftListing) ⟨[], []⟩ "eth+").2.2
    (by decide)⟩

/-! ## Preconditions of `AddRule` -/

/-- C6, as the code has it: `AddRule` called with an empty `hostIP` always
fails, issues no command and leaves the engine untouched; the error is
`--host-ip must be set` when the interface check passes, and the interface
check's own error when that check, which runs first, fails. -/
theorem AddRule_empty_hostIP {σ : Type} (h : Host σ) (w : World σ)
    (appPort metadataAddress hostInterface : String) :
    let res := AddRule h w appPort metadataAddress hostInterface ""
    ((checkInterfaceExists h w hostInterface).1 = none →
      res.1 = some "--host-ip must be set") ∧
    (∀ e, (checkInterfaceExists h w hostInterface).1 = some e → res.1 = some e) ∧
    res.1.isSome = true ∧ execCmds (newEvents w res.2) = [] ∧ res.2.st = w.st := by
  intro res
  rcases AddRule_cases h w appPort metadataAddress hostInterface "" with
    ⟨e, hc, h1, h2, h3⟩ | ⟨hc, _, h1, h2, h3⟩ | ⟨_, hne, _⟩ | ⟨hv, _⟩ | ⟨hv, _⟩ | ⟨hv, _⟩ |
    ⟨hv, _⟩ | ⟨hv, _⟩ | ⟨hv, _⟩
  · refine ⟨fun hn => ?_, fun e2 he => ?_, ?_, ?_, h2⟩
    · rw [hc] at hn; cases hn
    · rw [hc] at he; rw [← he]; exact h1
    · show (AddRule h w appPort metadataAddress hostInterface "").1.isSome = true
      rw [h1]; rfl
    · show execCmds (newEvents w (AddRule h w appPort metadataAddress hostInterface "").2) = []
      rw [newEvents_of_log h3]; exact execCmds_checkEvents h w.st hostInterface
  · refine ⟨fun _ => h1, fun e2 he => ?_, ?_, ?_, h2⟩
    · rw [hc] at he; cases he
    · show (AddRule h w appPort metadataAddress hostInterface "").1.isSome = true
      rw [h1]; rfl
    · show execCmds (newEvents w (AddRule h w appPort metadataAddress hostInterface "").2) = []
      rw [newEvents_of_log h3]; exact execCmds_checkEvents h w.st hostInterface
  · exact absurd rfl hne
  all_goals exact absurd rfl hv.2.1

theorem AddRule_empty_hostIP_witness :
    (AddRule (idealHost [] nftListing) ⟨[], []⟩ "8080" "169.254.169.254" "eth+" "").1 =
      some "--host-ip must be set" :=
  (AddRule_empty_hostIP (idealHost [] nftListing) ⟨[], []⟩ "8080" "169.254.169.254" "eth+").1
    (by decide)

/-- C6, as the claim has it, fails: with an interface name that is not on the
host, the empty `hostIP` is never looked at and the error is the lookup's. -/
theorem AddRule_empty_hostIP_counterexample :
    (AddRule (idealHost [] nftListing) ⟨[], []⟩ "8080" "169.254.169.254" "eth0" "").1 =
        some "route ip+net: no such network interface" ∧
      (AddRule (idealHost [] nftListing) ⟨[], []⟩ "8080" "169.254.169.254" "eth0" "").1 ≠
        some "--host-ip must be set" := by
  decide

/-! ## The rule expression -/

/-- C3: the rule expression is `ip daddr <metadataAddress> tcp dport 80 iifname
<normalised interface> dnat to <hostIP>:<appPort>`; every `add rule` command
`AddRule` issues carries exactly this text, and after a successful listing the
rule is appended exactly when this text does not occur in the listing. -/
theorem AddRule_rule_rendering {σ : Type} (h : Host σ) (w : World σ)
    (appPort metadataAddress hostInterface hostIP : String) :
    let rule := "ip daddr " ++ metadataAddress ++ " tcp dport 80 iifname " ++
      massageHostInterface hostInterface ++ " dnat to " ++ hostIP ++ ":" ++ appPort
    let evs := newEvents w (AddRule h w appPort metadataAddress hostInterface hostIP).2
    AddRule.rule appPort metadataAddress (massageHostInterface hostInterface) hostIP = rule ∧
    (∀ c ∈ execCmds evs, c.args.take 2 = ["add", "rule"] → c = addRuleCmd rule) ∧
    (∀ r, Event.exec listCmd r ∈ evs → r.err = none →
      (addRuleCmd rule ∈ execCmds evs ↔ stringsContains r.output rule = false)) := by
  intro rule evs
  have hr : AddRule.rule appPort metadataAddress (massageHostInterface hostInterface) hostIP
      = rule := rule_eq _ _ _ _
  clear_value rule
  subst hr
  refine ⟨rfl, ?_⟩
  simp only [evs]
  clear evs
  have hpre := execCmds_preEvents h w.st hostInterface
  have hchk := execCmds_checkEvents h w.st hostInterface
  have hnp := exec_not_mem_preEvents h w.st hostInterface
  have hnc := exec_not_mem_checkEvents h w.st hostInterface
  rcases AddRule_cases h w appPort metadataAddress hostInterface hostIP with
    ⟨e, _, _, _, hev⟩ | ⟨_, _, _, _, hev⟩ | ⟨_, _, e, _, _, _, hev⟩ | ⟨_, e, _, _, _, hev⟩ |
    ⟨_, _, e, _, _, _, hev⟩ | ⟨_, _, _, e, hLe, _, _, _, hev⟩ | ⟨_, _, _, hLe, hex, _, _, hev⟩ |
    ⟨_, _, _, hL, e, _, _, _, hev⟩ | ⟨_, _, _, hL, _, _, _, hev⟩
  all_goals
    first
    | rw [newEvents_of_log hev]
    | rw [newEvents_of_log_assoc hev]
  · simp [hchk, hnc]
  · simp [hchk, hnc]
  · simp [hpre, hnp]
  · simp only [execCmds_append, hpre, execCmds, List.nil_append, List.mem_singleton,
      List.mem_append, hnp, false_or, Event.exec.injEq]
    refine ⟨?_, ?_⟩
    · rintro c rfl ht
      exact absurd ht (by decide)
    · rintro r ⟨hx, _⟩
      exact absurd hx listCmd_ne_tableCmd
  · simp only [execCmds_append, hpre, execCmds, List.nil_append, List.mem_cons,
      List.mem_singleton, List.mem_append, hnp, false_or, Event.exec.injEq, List.not_mem_nil,
      or_false]
    refine ⟨?_, ?_⟩
    · rintro c (rfl | rfl) ht <;> exact absurd ht (by decide)
    · rintro r (⟨hx, _⟩ | ⟨hx, _⟩)
      · exact absurd hx listCmd_ne_tableCmd
      · exact absurd hx listCmd_ne_chainCmd
  · simp only [execCmds_append, hpre, execCmds, List.nil_append, List.mem_cons,
      List.mem_singleton, List.mem_append, hnp, false_or, Event.exec.injEq, List.not_mem_nil,
      or_false]
    refine ⟨?_, ?_⟩
    · rintro c (rfl | rfl | rfl) ht <;> exact absurd ht (by decide)
    · rintro r (⟨hx, _⟩ | ⟨hx, _⟩ | ⟨_, rfl⟩) hr
      · exact absurd hx listCmd_ne_tableCmd
      · exact absurd hx listCmd_ne_chainCmd
      · rw [hLe] at hr; cases hr
  · simp only [execCmds_append, hpre, execCmds, List.nil_append, List.mem_cons,
      List.mem_singleton, List.mem_append, hnp, false_or, Event.exec.injEq, List.not_mem_nil,
      or_false]
    refine ⟨?_, ?_⟩
    · rintro c (rfl | rfl | rfl) ht <;> exact absurd ht (by decide)
    · rintro r (⟨hx, _⟩ | ⟨hx, _⟩ | ⟨_, rfl⟩) _
      · exact absurd hx listCmd_ne_tableCmd
      · exact absurd hx listCmd_ne_chainCmd
      · simp [hex, addRuleCmd_ne_tableCmd, addRuleCmd_ne_chainCmd, addRuleCmd_ne_listCmd]
  all_goals
    simp only [execCmds_append, hpre, execCmds, List.nil_append, List.mem_cons,
      List.mem_singleton, List.mem_append, hnp, false_or, Event.exec.injEq, List.not_mem_nil,
      or_false]
    refine ⟨?_, ?_⟩
    · rintro c (rfl | rfl | rfl | rfl) ht
      · exact absurd ht (by decide)
      · exact absurd ht (by decide)
      · exact absurd ht (by decide)
      · rfl
    · rintro r (⟨hx, _⟩ | ⟨hx, _⟩ | ⟨_, rfl⟩ | ⟨hx, _⟩) hr
      · exact absurd hx listCmd_ne_tableCmd
      · exact absurd hx listCmd_ne_chainCmd
      · rcases hL with ⟨hne, _⟩ | ⟨_, hnex⟩
        · exact absurd hr hne
        · simp [hnex]
      · exact absurd hx.symm (addRuleCmd_ne_listCmd _)

theorem AddRule_rule_rendering_witness :
    AddRule.rule "8080" "169.254.169.254" (massageHostInterface "eth0") "10.0.0.5" =
        "ip daddr 169.254.169.254 tcp dport 80 iifname eth0 dnat to 10.0.0.5:8080" ∧
      AddRule.rule "8080" "169.254.169.254" (massageHostInterface "eth+") "10.0.0.5" =
        "ip daddr 169.254.169.254 tcp dport 80 iifname eth* dnat to 10.0.0.5:8080" :=
  ⟨(AddRule_rule_rendering (idealHost [] nftListing) ⟨[], []⟩
      "8080" "169.254.169.254" "eth0" "10.0.0.5").1.trans (by decide),
   (AddRule_rule_rendering (idealHost [] nftListing) ⟨[], []⟩
      "8080" "169.254.169.254" "eth+" "10.0.0.5").1.trans (by decide)⟩

/-! ## The installer -/

/-- C2: when the preconditions pass, table and chain creation succeed and the
chain listing succeeds, `AddRule` issues no `add rule` command and returns
success if the listing contains the rule expression, and otherwise issues
exactly one `add rule ip kube2iam prerouting <rule>` command with that rule
expression and returns an error exactly when that command fails. -/
theorem AddRule_installer {σ : Type} (h : Host σ) (w : World σ)
    (appPort metadataAddress hostInterface hostIP : String)
    (hv : Validated h w hostInterface hostIP)
    (hT : (tableStep h w.st).1.err = none) (hC : (chainStep h w.st).1.err = none)
    (hL : (listStep h w.st).1.err = none) :
    let rule := AddRule.rule appPort metadataAddress (massageHostInterface hostInterface) hostIP
    let res := AddRule h w appPort metadataAddress hostInterface hostIP
    (stringsContains (listStep h w.st).1.output rule = true →
      execCmds (newEvents w res.2) = [tableCmd, chainCmd, listCmd] ∧ res.1 = none) ∧
    (stringsContains (listStep h w.st).1.output rule = false →
      execCmds (newEvents w res.2) = [tableCmd, chainCmd, listCmd, addRuleCmd rule] ∧
      (res.1.isSome = true ↔ (ruleStep h w.st rule).1.err.isSome = true)) := by
  intro rule res
  simp only [res, rule]
  clear res rule
  have hpre := execCmds_preEvents h w.st hostInterface
  rcases AddRule_cases h w appPort metadataAddress hostInterface hostIP with
    ⟨e, hc, _⟩ | ⟨_, hip, _⟩ | ⟨_, _, e, hp, _⟩ | ⟨_, e, hTe, _⟩ |
    ⟨_, _, e, hCe, _⟩ | ⟨_, _, _, e, hLe, _⟩ | ⟨_, _, _, _, hex, h1, _, hev⟩ |
    ⟨_, _, _, hL2, e, hRe, h1, _, hev⟩ | ⟨_, _, _, hL2, hRe, h1, _, hev⟩
  · rw [hv.1] at hc; cases hc
  · exact absurd hip hv.2.1
  · rw [hv.2.2] at hp; cases hp
  · rw [hT] at hTe; cases hTe
  · rw [hC] at hCe; cases hCe
  · rw [hL] at hLe; cases hLe
  · rw [newEvents_of_log_assoc hev, h1]
    simp [execCmds_append, hpre, execCmds, hex]
  · have hnex : stringsContains (listStep h w.st).1.output
        (AddRule.rule appPort metadataAddress (massageHostInterface hostInterface) hostIP)
        = false := by
      rcases hL2 with ⟨hne, _⟩ | ⟨_, hx⟩
      · exact absurd hL hne
      · exact hx
    rw [newEvents_of_log_assoc hev, h1, hRe]
    simp [execCmds_append, hpre, execCmds, hnex]
  · have hnex : stringsContains (listStep h w.st).1.output
        (AddRule.rule appPort metadataAddress (massageHostInterface hostInterface) hostIP)
        = false := by
      rcases hL2 with ⟨hne, _⟩ | ⟨_, hx⟩
      · exact absurd hL hne
      · exact hx
    rw [newEvents_of_log_assoc hev, h1, hRe]
    simp [execCmds_append, hpre, execCmds, hnex]

theorem AddRule_installer_witness :
    Validated (idealHost ["eth0"] nftListing) ⟨[], []⟩ "eth0" "10.0.0.5" ∧
      execCmds (newEvents ⟨[], []⟩ (AddRule (idealHost ["eth0"] nftListing) ⟨[], []⟩
        "8080" "169.254.169.254" "eth0" "10.0.0.5").2) =
        [tableCmd, chainCmd, listCmd, addRuleCmd
          (AddRule.rule "8080" "169.254.169.254" (massageHostInterface "eth0") "10.0.0.5")] :=
  ⟨by decide,
   ((AddRule_installer (idealHost ["eth0"] nftListing) ⟨[], []⟩
      "8080" "169.254.169.254" "eth0" "10.0.0.5"
      (by decide) (by decide) (by decide) (by decide)).2 (by decide)).1⟩

/-! ## Step order -/

/-- C9: the commands one `AddRule` call issues form a prefix of add table, add
chain, list chain, add rule, each at most once; none is issued when a
precondition fails, and then the call fails; a command that fails, other than
a listing that reports the chain as absent, is the last event of the call, and
the call returns an error. -/
theorem AddRule_fail_stop {σ : Type} (h : Host σ) (w : World σ)
    (appPort metadataAddress hostInterface hostIP : String) :
    let rule := AddRule.rule appPort metadataAddress (massageHostInterface hostInterface) hostIP
    let res := AddRule h w appPort metadataAddress hostInterface hostIP
    let evs := newEvents w res.2
    res.2.log = w.log ++ evs ∧
    execCmds evs <+: [tableCmd, chainCmd, listCmd, addRuleCmd rule] ∧
    (execCmds evs).Nodup ∧
    (¬ Validated h w hostInterface hostIP → execCmds evs = [] ∧ res.1.isSome = true) ∧
    (∀ (k : Nat) (c : Cmd) (r : CmdResult), evs[k]? = some (Event.exec c r) →
      r.err ≠ none → ¬ (c = listCmd ∧ chainAbsent r.output) →
      k + 1 = evs.length ∧ res.1.isSome = true) := by
  intro rule res evs
  simp only [evs, res, rule]
  clear evs res rule
  have hpre := execCmds_preEvents h w.st hostInterface
  have hchk := execCmds_checkEvents h w.st hostInterface
  have hnp := exec_not_mem_preEvents h w.st hostInterface
  have hnc := exec_not_mem_checkEvents h w.st hostInterface
  have hnd := cmds_nodup
    (AddRule.rule appPort metadataAddress (massageHostInterface hostInterface) hostIP)
  suffices hmain :
      (AddRule h w appPort metadataAddress hostInterface hostIP).2.log = w.log ++
        newEvents w (AddRule h w appPort metadataAddress hostInterface hostIP).2 ∧
      execCmds (newEvents w (AddRule h w appPort metadataAddress hostInterface hostIP).2) <+:
        [tableCmd, chainCmd, listCmd, addRuleCmd
          (AddRule.rule appPort metadataAddress (massageHostInterface hostInterface) hostIP)] ∧
      (¬ Validated h w hostInterface hostIP →
        execCmds (newEvents w (AddRule h w appPort metadataAddress hostInterface hostIP).2) = []
          ∧ (AddRule h w appPort metadataAddress hostInterface hostIP).1.isSome = true) ∧
      FailStop (AddRule h w appPort metadataAddress hostInterface hostIP).1.isSome
        (newEvents w (AddRule h w appPort metadataAddress hostInterface hostIP).2) by
    refine ⟨hmain.1, hmain.2.1, hmain.2.1.sublist.nodup hnd, hmain.2.2.1, ?_⟩
    intro k c r hk he hb
    exact FailStop_index _ _ hmain.2.2.2 k c r hk ⟨he, hb⟩
  rcases AddRule_cases h w appPort metadataAddress hostInterface hostIP with
    ⟨e, hc, h1, _, hev⟩ | ⟨_, hip, h1, _, hev⟩ | ⟨_, _, e, hp, h1, _, hev⟩ |
    ⟨hv, e, hTe, h1, _, hev⟩ | ⟨hv, hTe, e, hCe, h1, _, hev⟩ |
    ⟨hv, hTe, hCe, e, hLe, hab, h1, _, hev⟩ | ⟨hv, hTe, hCe, hLe, hex, h1, _, hev⟩ |
    ⟨hv, hTe, hCe, hL, e, hRe, h1, _, hev⟩ | ⟨hv, hTe, hCe, hL, hRe, h1, _, hev⟩
  · rw [newEvents_of_log hev, h1]
    exact ⟨hev, by simp [hchk], fun _ => ⟨hchk, rfl⟩, FailStop_of_no_exec _ _ hnc⟩
  · rw [newEvents_of_log hev, h1]
    exact ⟨hev, by simp [hchk], fun _ => ⟨hchk, rfl⟩, FailStop_of_no_exec _ _ hnc⟩
  · rw [newEvents_of_log hev, h1]
    exact ⟨hev, by simp [hpre], fun _ => ⟨hpre, rfl⟩, FailStop_of_no_exec _ _ hnp⟩
  all_goals
    rw [newEvents_of_log_assoc hev, h1]
    refine ⟨by rw [hev, List.append_assoc], ?_, fun hnv => absurd hv hnv, ?_⟩
    · simp [execCmds_append, hpre, execCmds, List.prefix_iff_eq_take]
    · apply FailStop_append _ _ _ hnp
      first
      | solve | simp [FailStop, nonBenignFailure, hTe]
      | solve | simp [FailStop, nonBenignFailure, hTe, hCe]
      | solve | simp [FailStop, nonBenignFailure, hTe, hCe, hLe]
      | (rcases hL with ⟨_, hab⟩ | ⟨hLe, _⟩
         · simp [FailStop, nonBenignFailure, hTe, hCe, hab, hRe]
         · simp [FailStop, nonBenignFailure, hTe, hCe, hLe, hRe])

theorem AddRule_fail_stop_witness :
    ¬ Validated (idealHost [] nftListing) ⟨[], []⟩ "eth0" "10.0.0.5" ∧
      execCmds (newEvents ⟨[], []⟩ (AddRule (idealHost [] nftListing) ⟨[], []⟩
        "8080" "169.254.169.254" "eth0" "10.0.0.5").2) = [] ∧
      (AddRule (idealHost [] nftListing) ⟨[], []⟩
        "8080" "169.254.169.254" "eth0" "10.0.0.5").1.isSome = true :=
  ⟨by decide,
   (AddRule_fail_stop (idealHost [] nftListing) ⟨[], []⟩
      "8080" "169.254.169.254" "eth0" "10.0.0.5").2.2.2.1 (by decide)⟩

/-! ## A failed chain listing -/

/-- C5, as the code has it: when the chain listing fails and its combined
output contains `No such file or directory` (with this capitalisation) or `does
not exist`, `ruleExists` returns `(false, nil)` and `AddRule` goes on to append
the rule, its result being that of the append; when the listing fails with any
other output, `ruleExists` returns an error, `AddRule` returns it wrapped as
`failed to check if rule exists` and issues no append. -/
theorem ruleExists_failed_listing {σ : Type} (h : Host σ) (w : World σ)
    (table chain rule appPort metadataAddress hostInterface hostIP : String) :
    let out := (h.combinedOutput w.st ⟨"nft", ["list", "chain", "ip", table, chain]⟩).1
    let res := AddRule h w appPort metadataAddress hostInterface hostIP
    let r := AddRule.rule appPort metadataAddress (massageHostInterface hostInterface) hostIP
    (out.err ≠ none →
      (chainAbsent out.output → (ruleExists h w table chain rule).1 = (false, none)) ∧
      (¬ chainAbsent out.output → ∃ e, (ruleExists h w table chain rule).1 = (false, some e))) ∧
    (Validated h w hostInterface hostIP → (tableStep h w.st).1.err = none →
      (chainStep h w.st).1.err = none → (listStep h w.st).1.err ≠ none →
      (chainAbsent (listStep h w.st).1.output →
        execCmds (newEvents w res.2) = [tableCmd, chainCmd, listCmd, addRuleCmd r] ∧
        res.1 = (ruleStep h w.st r).1.err.map (fun e =>
          fmtErrorf "failed to add nftables rule: %w" [nftError e (ruleStep h w.st r).1.output])) ∧
      (¬ chainAbsent (listStep h w.st).1.output →
        execCmds (newEvents w res.2) = [tableCmd, chainCmd, listCmd] ∧
        ∃ e, res.1 = some (fmtErrorf "failed to check if rule exists: %w" [e]))) := by
  intro out res r
  simp only [out, res, r]
  clear out res r
  refine ⟨?_, ?_⟩
  · intro herr
    rw [ruleExists_fst]
    cases he : (h.combinedOutput w.st ⟨"nft", ["list", "chain", "ip", table, chain]⟩).1.err with
    | none => exact absurd he herr
    | some e =>
      refine ⟨fun hab => ?_, fun hab => ?_⟩
      · simp only [if_pos hab]
      · simp only [if_neg hab]
        exact ⟨_, rfl⟩
  · intro hv hT hC hL
    have hpre := execCmds_preEvents h w.st hostInterface
    rcases AddRule_cases h w appPort metadataAddress hostInterface hostIP with
      ⟨e, hc, _⟩ | ⟨_, hip, _⟩ | ⟨_, _, e, hp, _⟩ | ⟨_, e, hTe, _⟩ |
      ⟨_, _, e, hCe, _⟩ | ⟨_, _, _, e, hLe, hab, h1, _, hev⟩ | ⟨_, _, _, hLe, _⟩ |
      ⟨_, _, _, hL2, e, hRe, h1, _, hev⟩ | ⟨_, _, _, hL2, hRe, h1, _, hev⟩
    · rw [hv.1] at hc; cases hc
    · exact absurd hip hv.2.1
    · rw [hv.2.2] at hp; cases hp
    · rw [hT] at hTe; cases hTe
    · rw [hC] at hCe; cases hCe
    · rw [newEvents_of_log_assoc hev, h1]
      refine ⟨fun hx => absurd hx hab, fun _ => ⟨?_, _, rfl⟩⟩
      simp [execCmds_append, hpre, execCmds]
    · exact absurd hLe hL
    · have hab : chainAbsent (listStep h w.st).1.output := by
        rcases hL2 with ⟨_, hx⟩ | ⟨hx, _⟩
        · exact hx
        · exact absurd hx hL
      rw [newEvents_of_log_assoc hev, h1, hRe]
      refine ⟨fun _ => ⟨?_, rfl⟩, fun hx => absurd hab hx⟩
      simp [execCmds_append, hpre, execCmds]
    · have hab : chainAbsent (listStep h w.st).1.output := by
        rcases hL2 with ⟨_, hx⟩ | ⟨hx, _⟩
        · exact hx
        · exact absurd hx hL
      rw [newEvents_of_log_assoc hev, h1, hRe]
      refine ⟨fun _ => ⟨?_, rfl⟩, fun hx => absurd hab hx⟩
      simp [execCmds_append, hpre, execCmds]

theorem ruleExists_failed_listing_witness :
    chainAbsent "Error: No such file or directory" ∧
      execCmds (newEvents ⟨(), []⟩
        (AddRule (failingListHost "Error: No such file or directory") ⟨(), []⟩
          "8080" "169.254.169.254" "eth0" "10.0.0.5").2) =
        [tableCmd, chainCmd, listCmd, addRuleCmd
          (AddRule.rule "8080" "169.254.169.254" (massageHostInterface "eth0") "10.0.0.5")] :=
  ⟨by decide,
   (((ruleExists_failed_listing (failingListHost "Error: No such file or directory") ⟨(), []⟩
      "kube2iam" "prerouting" "" "8080" "169.254.169.254" "eth0" "10.0.0.5").2
      (by decide) (by decide) (by decide) (by decide)).1 (by decide)).1⟩

/-- C5, as the claim has it, fails: a failed listing whose output contains `no
such file or directory` in lower case is not read as an absent chain;
`ruleExists` returns an error, `AddRule` reports a query failure and appends
nothing. -/
theorem ruleExists_failed_listing_counterexample :
    stringsContains "Error: no such file or directory" "no such file or directory" = true ∧
      (ruleExists (failingListHost "Error: no such file or directory") ⟨(), []⟩
        "kube2iam" "prerouting"
        "ip daddr 169.254.169.254 tcp dport 80 iifname eth0 dnat to 10.0.0.5:8080").1 =
        (false, some
          "failed to list chain: exit status 1 (output: Error: no such file or directory)") ∧
      (AddRule (failingListHost "Error: no such file or directory") ⟨(), []⟩
        "8080" "169.254.169.254" "eth0" "10.0.0.5").1 =
        some ("failed to check if rule exists: failed to list chain: exit status 1 " ++
          "(output: Error: no such file or directory)") ∧
      execCmds (AddRule (failingListHost "Error: no such file or directory") ⟨(), []⟩
        "8080" "169.254.169.254" "eth0" "10.0.0.5").2.log = [tableCmd, chainCmd, listCmd] := by
  decide

/-! ## Repeated calls against a well-behaved engine -/

theorem nftLines_contains (rules : List String) (r : String) (hr : r ∈ rules) :
    r.data <:+: (nftLines rules).data := by
  induction rules with
  | nil => cases hr
  | cons x xs ih =>
    simp only [nftLines, String.data_append]
    rcases List.mem_cons.mp hr with rfl | hmem
    · exact ⟨"\t\t".data, "\n".data ++ (nftLines xs).data, by simp [List.append_assoc]⟩
    · exact (ih hmem).trans (List.suffix_append _ _).isInfix

theorem nftListing_contains (rules : List String) (r : String) (hr : r ∈ rules) :
    stringsContains (nftListing rules) r = true := by
  rw [stringsContains_spec]
  simp only [nftListing, String.data_append]
  exact (nftLines_contains rules r hr).trans (List.infix_append _ _ _)

theorem idealHost_validated (ifaces : List String) (render : List String → String)
    (w w' : World (List String)) (i ip : String)
    (hv : Validated (idealHost ifaces render) w i ip) :
    Validated (idealHost ifaces render) w' i ip := by
  unfold Validated at hv ⊢
  rw [checkInterfaceExists_eq] at hv ⊢
  exact hv

theorem idealHost_AddRule (ifaces : List String) (render : List String → String)
    (w : World (List String)) (a m i ip : String)
    (hv : Validated (idealHost ifaces render) w i ip) :
    (AddRule (idealHost ifaces render) w a m i ip).1 = none ∧
    (stringsContains (render w.st) (AddRule.rule a m (massageHostInterface i) ip) = true →
      (AddRule (idealHost ifaces render) w a m i ip).2.st = w.st ∧
      execCmds (newEvents w (AddRule (idealHost ifaces render) w a m i ip).2) =
        [tableCmd, chainCmd, listCmd]) ∧
    (stringsContains (render w.st) (AddRule.rule a m (massageHostInterface i) ip) = false →
      (AddRule (idealHost ifaces render) w a m i ip).2.st =
        w.st ++ [AddRule.rule a m (massageHostInterface i) ip] ∧
      execCmds (newEvents w (AddRule (idealHost ifaces render) w a m i ip).2) =
        [tableCmd, chainCmd, listCmd,
          addRuleCmd (AddRule.rule a m (massageHostInterface i) ip)]) := by
  have hT : tableStep (idealHost ifaces render) w.st = (⟨"", none⟩, w.st) := rfl
  have hC : chainStep (idealHost ifaces render) w.st = (⟨"", none⟩, w.st) := rfl
  have hL : listStep (idealHost ifaces render) w.st = (⟨render w.st, none⟩, w.st) := rfl
  have hR : ∀ r, ruleStep (idealHost ifaces render) w.st r = (⟨"", none⟩, w.st ++ [r]) :=
    fun _ => rfl
  have hpre := execCmds_preEvents (idealHost ifaces render) w.st i
  rcases AddRule_cases (idealHost ifaces render) w a m i ip with
    ⟨e, hc, _⟩ | ⟨_, hip, _⟩ | ⟨_, _, e, hp, _⟩ | ⟨_, e, hTe, _⟩ |
    ⟨_, _, e, hCe, _⟩ | ⟨_, _, _, e, hLe, _⟩ | ⟨_, _, _, _, hex, h1, h2, hev⟩ |
    ⟨_, _, _, _, e, hRe, _⟩ | ⟨_, _, _, hL2, _, h1, h2, hev⟩
  · rw [hv.1] at hc; cases hc
  · exact absurd hip hv.2.1
  · rw [hv.2.2] at hp; cases hp
  · rw [hT] at hTe; cases hTe
  · rw [hC] at hCe; cases hCe
  · rw [hL] at hLe; cases hLe
  · rw [hL] at hex h2
    rw [newEvents_of_log_assoc hev, h2]
    simp only at hex
    simp [h1, hex, execCmds_append, hpre, execCmds]
  · rw [hR] at hRe; cases hRe
  · rw [hL] at hL2
    rw [hR] at h2
    have hnex : stringsContains (render w.st) (AddRule.rule a m (massageHostInterface i) ip)
        = false := by
      rcases hL2 with ⟨hne, _⟩ | ⟨_, hx⟩
      · exact absurd rfl hne
      · exact hx
    rw [newEvents_of_log_assoc hev, h2]
    simp [h1, hnex, execCmds_append, hpre, execCmds]

/-- C1, as the code has it: on an engine where every command succeeds, `add
rule` appends its rule text to the chain and the listing shows every rule
text of the chain verbatim, two consecutive `AddRule` calls with a spec that
passes the preconditions both succeed and leave the engine state of one call;
when the listing of the starting chain does not contain the rule expression as
a substring, that state is the starting chain with the rule appended, and the
chain holds the rule expression exactly once. -/
theorem AddRule_idempotent (ifaces : List String) (render : List String → String)
    (hrender : ∀ rules r, r ∈ rules → stringsContains (render rules) r = true)
    (w : World (List String)) (appPort metadataAddress hostInterface hostIP : String)
    (hv : Validated (idealHost ifaces render) w hostInterface hostIP) :
    let rule := AddRule.rule appPort metadataAddress (massageHostInterface hostInterface) hostIP
    let r1 := AddRule (idealHost ifaces render) w appPort metadataAddress hostInterface hostIP
    let r2 := AddRule (idealHost ifaces render) r1.2 appPort metadataAddress hostInterface hostIP
    r1.1 = none ∧ r2.1 = none ∧ r2.2.st = r1.2.st ∧
    (stringsContains (render w.st) rule = false →
      r1.2.st = w.st ++ [rule] ∧ r2.2.st.count rule = 1) := by
  intro rule r1 r2
  have h1 := idealHost_AddRule ifaces render w appPort metadataAddress hostInterface hostIP hv
  have hv2 := idealHost_validated ifaces render w r1.2 hostInterface hostIP hv
  have h2 := idealHost_AddRule ifaces render r1.2 appPort metadataAddress hostInterface hostIP hv2
  have hsame : r2.2.st = r1.2.st := by
    apply (h2.2.1 _).1
    cases hx : stringsContains (render w.st) rule with
    | true =>
      have hst : r1.2.st = w.st := (h1.2.1 hx).1
      rw [hst]; exact hx
    | false =>
      have hst : r1.2.st = w.st ++ [rule] := (h1.2.2 hx).1
      exact hrender _ _ (by rw [hst]; simp)
  refine ⟨h1.1, h2.1, hsame, fun hfresh => ?_⟩
  have hst : r1.2.st = w.st ++ [rule] := (h1.2.2 hfresh).1
  refine ⟨hst, ?_⟩
  have hnot : rule ∉ w.st := by
    intro hmem
    have := hrender _ _ hmem
    rw [hfresh] at this
    cases this
  rw [hsame, hst, List.count_append, List.count_eq_zero_of_not_mem hnot]
  simp

theorem AddRule_idempotent_witness :
    Validated (idealHost ["eth0"] nftListing) ⟨[], []⟩ "eth0" "10.0.0.5" ∧
      (AddRule (idealHost ["eth0"] nftListing)
        (AddRule (idealHost ["eth0"] nftListing) ⟨[], []⟩
          "8080" "169.254.169.254" "eth0" "10.0.0.5").2
        "8080" "169.254.169.254" "eth0" "10.0.0.5").2.st.count
        (AddRule.rule "8080" "169.254.169.254" (massageHostInterface "eth0") "10.0.0.5") = 1 :=
  ⟨by decide,
   ((AddRule_idempotent ["eth0"] nftListing nftListing_contains ⟨[], []⟩
      "8080" "169.254.169.254" "eth0" "10.0.0.5" (by decide)).2.2.2 (by decide)).2⟩

/-- C1, as the claim has it, fails: the chain a call for port 8080 leaves holds
only the rule for port 8080 and so does not contain the rule for port 80, yet
after two `AddRule` calls for port 80 it still holds that rule zero times. -/
theorem AddRule_idempotent_counterexample :
    (AddRule (idealHost ["eth0"] nftListing) ⟨[], []⟩
        "8080" "169.254.169.254" "eth0" "10.0.0.5").2.st =
        ["ip daddr 169.254.169.254 tcp dport 80 iifname eth0 dnat to 10.0.0.5:8080"] ∧
      Validated (idealHost ["eth0"] nftListing)
        ⟨["ip daddr 169.254.169.254 tcp dport 80 iifname eth0 dnat to 10.0.0.5:8080"], []⟩
        "eth0" "10.0.0.5" ∧
      AddRule.rule "80" "169.254.169.254" (massageHostInterface "eth0") "10.0.0.5" ∉
        ["ip daddr 169.254.169.254 tcp dport 80 iifname eth0 dnat to 10.0.0.5:8080"] ∧
      (AddRule (idealHost ["eth0"] nftListing)
        (AddRule (idealHost ["eth0"] nftListing)
          ⟨["ip daddr 169.254.169.254 tcp dport 80 iifname eth0 dnat to 10.0.0.5:8080"], []⟩
          "80" "169.254.169.254" "eth0" "10.0.0.5").2
        "80" "169.254.169.254" "eth0" "10.0.0.5").2.st.count
        (AddRule.rule "80" "169.254.169.254" (massageHostInterface "eth0") "10.0.0.5") = 0 := by
  decide

/-- C8, as the code has it: on an engine where every command succeeds, `add
rule` appends its rule text to the chain, nothing else changes the chain and
the listing shows every rule text of the chain verbatim, for every spec that
passes the preconditions and whose rule expression is in the chain after a
first `AddRule` call, a second call with the same spec issues no `add rule`
command; its commands are exactly add table, add chain and the chain listing,
it succeeds and it leaves the chain as it is. -/
theorem AddRule_second_call (ifaces : List String) (render : List String → String)
    (hrender : ∀ rules r, r ∈ rules → stringsContains (render rules) r = true)
    (w : World (List String)) (appPort metadataAddress hostInterface hostIP : String)
    (hv : Validated (idealHost ifaces render) w hostInterface hostIP)
    (hinst : AddRule.rule appPort metadataAddress (massageHostInterface hostInterface) hostIP ∈
      (AddRule (idealHost ifaces render) w appPort metadataAddress hostInterface hostIP).2.st) :
    let r1 := AddRule (idealHost ifaces render) w appPort metadataAddress hostInterface hostIP
    let r2 := AddRule (idealHost ifaces render) r1.2 appPort metadataAddress hostInterface hostIP
    execCmds (newEvents r1.2 r2.2) = [tableCmd, chainCmd, listCmd] ∧
    r2.1 = none ∧ r2.2.st = r1.2.st := by
  intro r1 r2
  have hv2 := idealHost_validated ifaces render w r1.2 hostInterface hostIP hv
  have h2 := idealHost_AddRule ifaces render r1.2 appPort metadataAddress hostInterface hostIP hv2
  have hc := h2.2.1 (hrender _ _ hinst)
  exact ⟨hc.2, h2.1, hc.1⟩

theorem AddRule_second_call_witness :
    Validated (idealHost ["eth0"] nftListing) ⟨[], []⟩ "eth0" "10.0.0.5" ∧
      execCmds (newEvents
        (AddRule (idealHost ["eth0"] nftListing) ⟨[], []⟩
          "8080" "169.254.169.254" "eth0" "10.0.0.5").2
        (AddRule (idealHost ["eth0"] nftListing)
          (AddRule (idealHost ["eth0"] nftListing) ⟨[], []⟩
            "8080" "169.254.169.254" "eth0" "10.0.0.5").2
          "8080" "169.254.169.254" "eth0" "10.0.0.5").2) = [tableCmd, chainCmd, listCmd] :=
  ⟨by decide,
   (AddRule_second_call ["eth0"] nftListing nftListing_contains ⟨[], []⟩
      "8080" "169.254.169.254" "eth0" "10.0.0.5" (by decide) (by decide)).1⟩

/-- C8, as the claim has it, fails: after a first call that installed the
rule, the second identical call issues add table and add chain before the
listing, so the listing is not its only command. -/
theorem AddRule_second_call_counterexample :
    (AddRule (idealHost ["eth0"] nftListing) ⟨[], []⟩
        "8080" "169.254.169.254" "eth0" "10.0.0.5").1 = none ∧
      (AddRule (idealHost ["eth0"] nftListing) ⟨[], []⟩
        "8080" "169.254.169.254" "eth0" "10.0.0.5").2.st =
        ["ip daddr 169.254.169.254 tcp dport 80 iifname eth0 dnat to 10.0.0.5:8080"] ∧
      execCmds (newEvents
        (AddRule (idealHost ["eth0"] nftListing) ⟨[], []⟩
          "8080" "169.254.169.254" "eth0" "10.0.0.5").2
        (AddRule (idealHost ["eth0"] nftListing)
          (AddRule (idealHost ["eth0"] nftListing) ⟨[], []⟩
            "8080" "169.254.169.254" "eth0" "10.0.0.5").2
          "8080" "169.254.169.254" "eth0" "10.0.0.5").2) =
        [⟨"nft", ["add", "table", "ip", "kube2iam"]⟩,
         ⟨"nft", ["add", "chain", "ip", "kube2iam", "prerouting",
            "\x7b", "type", "nat", "hook", "prerouting", "priority", "-100", ";", "\x7d"]⟩,
         ⟨"nft", ["list", "chain", "ip", "kube2iam", "prerouting"]⟩] ∧
      execCmds (newEvents
        (AddRule (idealHost ["eth0"] nftListing) ⟨[], []⟩
          "8080" "169.254.169.254" "eth0" "10.0.0.5").2
        (AddRule (idealHost ["eth0"] nftListing)
          (AddRule (idealHost ["eth0"] nftListing) ⟨[], []⟩
            "8080" "169.254.169.254" "eth0" "10.0.0.5").2
          "8080" "169.254.169.254" "eth0" "10.0.0.5").2) ≠
        [⟨"nft", ["list", "chain", "ip", "kube2iam", "prerouting"]⟩] := by
  decide

/-! ## The substring check and rules for other ports -/

/-- C10: the rule expression for a port is a substring of the rule expression
for any port it is a prefix of; with ports `80` and `8080` and a chain holding
only the rule for 8080, `AddRule` for port 80 finds its rule present, issues no
`add rule` command and succeeds, the chain still holding no rule for port 80. -/
theorem substring_check_accepts_longer_port
    (appPort more metadataAddress hostInterface hostIP : String) :
    stringsContains
        (AddRule.rule (appPort ++ more) metadataAddress (massageHostInterface hostInterface) hostIP)
        (AddRule.rule appPort metadataAddress (massageHostInterface hostInterface) hostIP) = true ∧
      (AddRule (idealHost ["eth0"] nftListing)
        ⟨["ip daddr 169.254.169.254 tcp dport 80 iifname eth0 dnat to 10.0.0.5:8080"], []⟩
        "80" "169.254.169.254" "eth0" "10.0.0.5").1 = none ∧
      execCmds (AddRule (idealHost ["eth0"] nftListing)
        ⟨["ip daddr 169.254.169.254 tcp dport 80 iifname eth0 dnat to 10.0.0.5:8080"], []⟩
        "80" "169.254.169.254" "eth0" "10.0.0.5").2.log = [tableCmd, chainCmd, listCmd] ∧
      (AddRule (idealHost ["eth0"] nftListing)
        ⟨["ip daddr 169.254.169.254 tcp dport 80 iifname eth0 dnat to 10.0.0.5:8080"], []⟩
        "80" "169.254.169.254" "eth0" "10.0.0.5").2.st =
        ["ip daddr 169.254.169.254 tcp dport 80 iifname eth0 dnat to 10.0.0.5:8080"] ∧
      AddRule.rule "80" "169.254.169.254" (massageHostInterface "eth0") "10.0.0.5" ∉
        (AddRule (idealHost ["eth0"] nftListing)
          ⟨["ip daddr 169.254.169.254 tcp dport 80 iifname eth0 dnat to 10.0.0.5:8080"], []⟩
          "80" "169.254.169.254" "eth0" "10.0.0.5").2.st := by
  refine ⟨?_, by decide, by decide, by decide, by decide⟩
  rw [stringsContains_spec, rule_eq, rule_eq]
  simp only [String.data_append]
  rw [← List.append_assoc]
  exact (List.prefix_append _ _).isInfix

end Kube2iam
